import Mathlib

namespace Facial

/-!
Shallow embedding of the segmentation and aggregation engine of the
Facial-Sensing-for-Depression-Biomarkers repository (src/utils).
Tables are modelled as lists of rows of rational cells; labels, mapped
labels and counts all live in the single cell type ℚ.
-/

/-- The boundary positions computed inside `find_subsegments_indices`
(preprocessing.py): `np.flatnonzero(values[:-1] != values[1:]) + 1`. -/
def changes {α : Type} [DecidableEq α] (values : List α) : List Nat :=
  ((List.range (values.length - 1)).filter
    (fun i => decide (values[i]? ≠ values[i + 1]?))).map (fun i => i + 1)

/-- The segment list built by `find_subsegments_indices`:
`column_stack(concat([0], changes), concat(changes, [len(values)]))`. -/
def subsegments {α : Type} [DecidableEq α] (values : List α) : List (Nat × Nat) :=
  (0 :: changes values).zip (changes values ++ [values.length])

/-- `find_subsegments_indices` (preprocessing.py): raises on empty input,
otherwise pairs the segment starts with the segment ends. -/
def find_subsegments_indices {α : Type} [DecidableEq α] (values : List α) :
    Except String (List (Nat × Nat)) :=
  if values.length = 0 then
    .error "Segments cannot be extracted from an empty list"
  else
    .ok (subsegments values)

/-- Adjacent pairs of a list: `pairs [a, b, c] = [(a, b), (b, c)]`.
Helper to reason about `subsegments`. -/
def pairs : List Nat → List (Nat × Nat)
  | a :: b :: rest => (a, b) :: pairs (b :: rest)
  | _ => []

theorem zip_eq_pairs (l : List Nat) (a n : Nat) :
    (a :: l).zip (l ++ [n]) = pairs (a :: (l ++ [n])) := by
  induction l generalizing a with
  | nil => rfl
  | cons b rest ih =>
    show (a, b) :: ((b :: rest).zip (rest ++ [n])) = _
    rw [ih b]
    rfl

theorem subsegments_eq_pairs {α : Type} [DecidableEq α] (values : List α) :
    subsegments values = pairs (0 :: (changes values ++ [values.length])) :=
  zip_eq_pairs _ 0 _

theorem mem_changes {α : Type} [DecidableEq α] (values : List α) (k : Nat) :
    k ∈ changes values ↔
      ∃ i, k = i + 1 ∧ i < values.length - 1 ∧ values[i]? ≠ values[i + 1]? := by
  unfold changes
  simp only [List.mem_map, List.mem_filter, List.mem_range, decide_eq_true_eq]
  constructor
  · rintro ⟨i, ⟨hi, hne⟩, rfl⟩
    exact ⟨i, rfl, hi, hne⟩
  · rintro ⟨i, rfl, hi, hne⟩
    exact ⟨i, ⟨hi, hne⟩, rfl⟩

theorem changes_pairwise {α : Type} [DecidableEq α] (values : List α) :
    (changes values).Pairwise (· < ·) := by
  unfold changes
  refine List.Pairwise.map _ (fun a b h => Nat.succ_lt_succ h) ?_
  exact (List.sorted_lt_range _).filter _

theorem changes_pos {α : Type} [DecidableEq α] (values : List α) :
    ∀ k ∈ changes values, 0 < k := by
  intro k hk
  obtain ⟨i, rfl, _, _⟩ := (mem_changes values k).mp hk
  exact Nat.succ_pos i

theorem changes_lt_length {α : Type} [DecidableEq α] (values : List α) :
    ∀ k ∈ changes values, k < values.length := by
  intro k hk
  obtain ⟨i, rfl, hi, _⟩ := (mem_changes values k).mp hk
  omega

/-- The full boundary list `0 :: changes ++ [len]` is strictly increasing. -/
theorem bounds_pairwise {α : Type} [DecidableEq α] (values : List α)
    (h : values ≠ []) :
    (0 :: (changes values ++ [values.length])).Pairwise (· < ·) := by
  have hlen : 0 < values.length := List.length_pos.mpr h
  refine List.pairwise_cons.mpr ⟨?_, ?_⟩
  · intro b hb
    rcases List.mem_append.mp hb with hb | hb
    · exact changes_pos values b hb
    · simp only [List.mem_singleton] at hb
      omega
  · refine List.pairwise_append.mpr ⟨changes_pairwise values, ?_, ?_⟩
    · simp
    · intro a ha b hb
      simp only [List.mem_singleton] at hb
      subst hb
      exact changes_lt_length values a ha

theorem pairs_chain_contiguous (l : List Nat) :
    (pairs l).Chain' (fun p q => p.2 = q.1) := by
  match l with
  | [] => exact List.chain'_nil
  | [_] => exact List.chain'_nil
  | a :: b :: rest =>
    have ih := pairs_chain_contiguous (b :: rest)
    match rest with
    | [] => simp [pairs]
    | c :: rest2 =>
      exact List.Chain'.cons rfl ih

theorem pairs_fst_lt_snd (l : List Nat) (hl : l.Pairwise (· < ·)) :
    ∀ p ∈ pairs l, p.1 < p.2 := by
  match l with
  | [] => intro p hp; cases hp
  | [_] => intro p hp; cases hp
  | a :: b :: rest =>
    intro p hp
    have hab : a < b := (List.pairwise_cons.mp hl).1 b (by simp)
    have htl : (b :: rest).Pairwise (· < ·) := (List.pairwise_cons.mp hl).2
    cases hp with
    | head => exact hab
    | tail _ hmem => exact pairs_fst_lt_snd (b :: rest) htl p hmem

theorem pairs_head_le_fst (b : Nat) (rest : List Nat)
    (hl : (b :: rest).Pairwise (· < ·)) :
    ∀ p ∈ pairs (b :: rest), b ≤ p.1 := by
  match rest with
  | [] => intro p hp; cases hp
  | c :: rest2 =>
    intro p hp
    have hbc : b < c := (List.pairwise_cons.mp hl).1 c (by simp)
    have htl : (c :: rest2).Pairwise (· < ·) := (List.pairwise_cons.mp hl).2
    cases hp with
    | head => exact Nat.le_refl b
    | tail _ hmem =>
      exact Nat.le_of_lt (Nat.lt_of_lt_of_le hbc (pairs_head_le_fst c rest2 htl p hmem))

theorem pairs_pairwise_disjoint (l : List Nat) (hl : l.Pairwise (· < ·)) :
    (pairs l).Pairwise (fun p q => p.2 ≤ q.1) := by
  match l with
  | [] => exact List.Pairwise.nil
  | [_] => exact List.Pairwise.nil
  | a :: b :: rest =>
    have htl : (b :: rest).Pairwise (· < ·) := (List.pairwise_cons.mp hl).2
    refine List.pairwise_cons.mpr ⟨?_, pairs_pairwise_disjoint (b :: rest) htl⟩
    intro q hq
    exact pairs_head_le_fst b rest htl q hq

theorem pairs_getLast_snd (a b : Nat) (rest : List Nat) :
    ((pairs (a :: b :: rest)).map Prod.snd).getLast? = (a :: b :: rest).getLast? := by
  match rest with
  | [] => rfl
  | c :: rest2 =>
    have ih := pairs_getLast_snd b c rest2
    have h1 : (pairs (a :: b :: c :: rest2)).map Prod.snd
        = b :: (pairs (b :: c :: rest2)).map Prod.snd := rfl
    have h2 : (pairs (b :: c :: rest2)).map Prod.snd
        = c :: (pairs (c :: rest2)).map Prod.snd := rfl
    rw [h1, h2, List.getLast?_cons_cons, ← h2, ih]
    exact (List.getLast?_cons_cons).symm

theorem pairs_countP_one (l : List Nat) (hl : l.Pairwise (· < ·)) (j : Nat)
    (hhead : ∀ a rest, l = a :: rest → a ≤ j)
    (hlast : ∃ b ∈ l, j < b) :
    (pairs l).countP (fun p => decide (p.1 ≤ j ∧ j < p.2)) = 1 := by
  match l with
  | [] =>
    obtain ⟨b, hb, _⟩ := hlast
    cases hb
  | [a] =>
    obtain ⟨b, hb, hjb⟩ := hlast
    simp only [List.mem_singleton] at hb
    subst hb
    have := hhead b [] rfl
    omega
  | a :: b :: rest =>
    have ha : a ≤ j := hhead a (b :: rest) rfl
    have htl : (b :: rest).Pairwise (· < ·) := (List.pairwise_cons.mp hl).2
    by_cases hjb : j < b
    · show ((a, b) :: pairs (b :: rest)).countP _ = 1
      rw [List.countP_cons]
      have hrest0 : (pairs (b :: rest)).countP (fun p => decide (p.1 ≤ j ∧ j < p.2)) = 0 := by
        rw [List.countP_eq_zero]
        intro p hp
        have := pairs_head_le_fst b rest htl p hp
        simp only [decide_eq_true_eq]
        omega
      simp only [hrest0, decide_eq_true_eq]
      have : (a ≤ j ∧ j < b) := ⟨ha, hjb⟩
      simp [this]
    · show ((a, b) :: pairs (b :: rest)).countP _ = 1
      rw [List.countP_cons]
      have hnot : ¬(a ≤ j ∧ j < b) := fun hc => hjb hc.2
      have hrec : (pairs (b :: rest)).countP (fun p => decide (p.1 ≤ j ∧ j < p.2)) = 1 := by
        refine pairs_countP_one (b :: rest) htl j ?_ ?_
        · intro a' rest' heq
          cases heq
          omega
        · obtain ⟨c, hc, hjc⟩ := hlast
          cases hc with
          | head => omega
          | tail _ hmem => exact ⟨c, hmem, hjc⟩
      simp only [hrec, decide_eq_true_eq]
      simp [hnot]

theorem pairs_head_fst (a : Nat) (l : List Nat) (h : l ≠ []) :
    ((pairs (a :: l)).map Prod.fst).head? = some a := by
  match l with
  | [] => exact absurd rfl h
  | b :: rest => rfl

theorem subsegments_spec {α : Type} [DecidableEq α] (values : List α)
    (hne : values ≠ []) :
    ((subsegments values).map Prod.fst).head? = some 0
    ∧ ((subsegments values).map Prod.snd).getLast? = some values.length
    ∧ (subsegments values).Chain' (fun p q => p.2 = q.1)
    ∧ (∀ p ∈ subsegments values, p.1 < p.2)
    ∧ (subsegments values).Pairwise (fun p q => p.1 < q.1 ∧ p.2 ≤ q.1)
    ∧ (∀ j, j < values.length →
        (subsegments values).countP (fun p => decide (p.1 ≤ j ∧ j < p.2)) = 1) := by
  have hp := bounds_pairwise values hne
  have hrw := subsegments_eq_pairs values
  obtain ⟨b, rest, hbr⟩ :
      ∃ b rest, changes values ++ [values.length] = b :: rest := by
    cases h : changes values with
    | nil => exact ⟨values.length, [], by simp [h]⟩
    | cons c cs => exact ⟨c, cs ++ [values.length], by simp [h]⟩
  refine ⟨?_, ?_, ?_, ?_, ?_, ?_⟩
  · rw [hrw]
    exact pairs_head_fst 0 _ (by rw [hbr]; exact List.cons_ne_nil _ _)
  · rw [hrw, hbr]
    rw [pairs_getLast_snd 0 b rest, ← hbr]
    show (((0 :: changes values) ++ [values.length]).getLast?) = _
    exact List.getLast?_concat _
  · rw [hrw]; exact pairs_chain_contiguous _
  · rw [hrw]; exact pairs_fst_lt_snd _ hp
  · rw [hrw]
    have h1 := pairs_pairwise_disjoint _ hp
    have h2 := pairs_fst_lt_snd _ hp
    exact h1.imp_of_mem (fun ha hb hr => ⟨lt_of_lt_of_le (h2 _ ha) hr, hr⟩)
  · intro j hj
    rw [hrw]
    refine pairs_countP_one _ hp j ?_ ?_
    · intro a rest' heq
      cases heq
      exact Nat.zero_le j
    · refine ⟨values.length, ?_, hj⟩
      exact List.mem_cons_of_mem _ (List.mem_append_right _ (List.mem_singleton.mpr rfl))

/-- C1: for every non-empty label sequence, `find_subsegments_indices` returns
ranges that start at 0, end at the input length, are contiguous (each end equals
the next start), nonempty, non-overlapping and ordered by start, and cover every
input index exactly once; a length-1 sequence yields exactly `[(0, 1)]`. -/
theorem claim_C1_segmentation_partition {α : Type} [DecidableEq α]
    (values : List α) (hne : values ≠ []) (segs : List (Nat × Nat))
    (hseg : find_subsegments_indices values = .ok segs) :
    ((segs.map Prod.fst).head? = some 0)
    ∧ ((segs.map Prod.snd).getLast? = some values.length)
    ∧ segs.Chain' (fun p q => p.2 = q.1)
    ∧ (∀ p ∈ segs, p.1 < p.2)
    ∧ segs.Pairwise (fun p q => p.1 < q.1 ∧ p.2 ≤ q.1)
    ∧ (∀ j, j < values.length →
        segs.countP (fun p => decide (p.1 ≤ j ∧ j < p.2)) = 1)
    ∧ (values.length = 1 → segs = [(0, 1)]) := by
  have hlen : values.length ≠ 0 := fun h => hne (List.length_eq_zero.mp h)
  have hok : segs = subsegments values := by
    unfold find_subsegments_indices at hseg
    rw [if_neg hlen] at hseg
    exact (Except.ok.injEq _ _ ▸ hseg.symm : _)
  subst hok
  obtain ⟨h1, h2, h3, h4, h5, h6⟩ := subsegments_spec values hne
  refine ⟨h1, h2, h3, h4, h5, h6, ?_⟩
  intro hlen1
  have hc : changes values = [] := by
    unfold changes
    rw [hlen1]
    rfl
  unfold subsegments
  rw [hc, hlen1]
  rfl

/-- Witness for C1 at the concrete input `[1, 1, 2]`. -/
theorem claim_C1_segmentation_partition_witness :
    ∃ segs, find_subsegments_indices ([1, 1, 2] : List Int) = .ok segs
    ∧ (((segs.map Prod.fst).head? = some 0)
      ∧ ((segs.map Prod.snd).getLast? = some 3)
      ∧ segs.Chain' (fun p q => p.2 = q.1)
      ∧ (∀ p ∈ segs, p.1 < p.2)
      ∧ segs.Pairwise (fun p q => p.1 < q.1 ∧ p.2 ≤ q.1)
      ∧ (∀ j, j < 3 → segs.countP (fun p => decide (p.1 ≤ j ∧ j < p.2)) = 1)
      ∧ (3 = 1 → segs = [(0, 1)])) := by
  refine ⟨[(0, 2), (2, 3)], rfl, ?_⟩
  exact claim_C1_segmentation_partition ([1, 1, 2] : List Int) (by decide)
    [(0, 2), (2, 3)] rfl

theorem sorted_head_le (b : Nat) (rest : List Nat)
    (hl : (b :: rest).Pairwise (· < ·)) :
    ∀ x ∈ b :: rest, b ≤ x := by
  intro x hx
  cases hx with
  | head => exact Nat.le_refl b
  | tail _ hmem => exact Nat.le_of_lt ((List.pairwise_cons.mp hl).1 x hmem)

theorem pairs_not_mem_between (l : List Nat) (hl : l.Pairwise (· < ·))
    (p : Nat × Nat) (hp : p ∈ pairs l) (k : Nat) (h1 : p.1 < k) (h2 : k < p.2) :
    k ∉ l := by
  match l with
  | [] => cases hp
  | [_] => cases hp
  | a :: b :: rest =>
    have htl : (b :: rest).Pairwise (· < ·) := (List.pairwise_cons.mp hl).2
    cases hp with
    | head =>
      intro hk
      cases hk with
      | head => omega
      | tail _ hmem =>
        have := sorted_head_le b rest htl k hmem
        simp only at h1 h2
        omega
    | tail _ hmem =>
      intro hk
      have hk2 : k ∉ (b :: rest) := pairs_not_mem_between (b :: rest) htl p hmem k h1 h2
      have hb := pairs_head_le_fst b rest htl p hmem
      have hab : a < b := (List.pairwise_cons.mp hl).1 b (by simp)
      cases hk with
      | head => omega
      | tail _ hmem2 => exact hk2 hmem2

theorem pairs_mem_bounds (l : List Nat) :
    ∀ p ∈ pairs l, p.1 ∈ l ∧ p.2 ∈ l := by
  match l with
  | [] => intro p hp; cases hp
  | [_] => intro p hp; cases hp
  | a :: b :: rest =>
    intro p hp
    cases hp with
    | head => exact ⟨by simp, by simp⟩
    | tail _ hmem =>
      obtain ⟨h1, h2⟩ := pairs_mem_bounds (b :: rest) p hmem
      exact ⟨List.mem_cons_of_mem _ h1, List.mem_cons_of_mem _ h2⟩

theorem bounds_le_length {α : Type} [DecidableEq α] (values : List α) :
    ∀ k ∈ 0 :: (changes values ++ [values.length]), k ≤ values.length := by
  intro k hk
  cases hk with
  | head => exact Nat.zero_le _
  | tail _ hmem =>
    rcases List.mem_append.mp hmem with h | h
    · exact Nat.le_of_lt (changes_lt_length values k h)
    · simp only [List.mem_singleton] at h
      omega

/-- Each returned range carries a constant run: every index inside a
subsegment holds the same value as the subsegment's start. -/
theorem subsegments_const {α : Type} [DecidableEq α] (values : List α)
    (hne : values ≠ []) (p : Nat × Nat) (hp : p ∈ subsegments values) :
    ∀ j, p.1 ≤ j → j < p.2 → values[j]? = values[p.1]? := by
  have hpp := bounds_pairwise values hne
  rw [subsegments_eq_pairs] at hp
  have hlen : p.2 ≤ values.length :=
    bounds_le_length values p.2 (pairs_mem_bounds _ p hp).2
  intro j
  induction j with
  | zero =>
    intro hle _
    have : p.1 = 0 := Nat.le_zero.mp hle
    rw [this]
  | succ j ih =>
    intro hle hlt
    rcases Nat.lt_or_ge p.1 (j + 1) with hcase | hcase
    · have hj1 : p.1 ≤ j := Nat.lt_succ_iff.mp hcase
      have hj2 : j < p.2 := Nat.lt_of_succ_lt hlt
      have hstep : values[j]? = values[j + 1]? := by
        have hnotmem : (j + 1) ∉ (0 :: (changes values ++ [values.length])) :=
          pairs_not_mem_between _ hpp p hp (j + 1) hcase hlt
        have hnotch : (j + 1) ∉ changes values := fun hc =>
          hnotmem (List.mem_cons_of_mem _ (List.mem_append_left _ hc))
        by_contra hneq
        exact hnotch ((mem_changes values (j + 1)).mpr
          ⟨j, rfl, by omega, hneq⟩)
      rw [← hstep]
      exact ih hj1 hj2
    · have : p.1 = j + 1 := Nat.le_antisymm hle hcase
      rw [this]

/-- A pandas DataFrame: named columns over rows of rational cells. -/
structure DF where
  cols : List String
  rows : List (List ℚ)
deriving DecidableEq

/-- `data.columns.get_loc(c)`: position of a named column. -/
def DF.colIdx (t : DF) (c : String) : Option Nat :=
  t.cols.indexOf? c

/-- `data[c]`: the cell sequence of a named column (missing cells read as 0;
a missing column reads as the empty sequence, callers check membership first). -/
def DF.col (t : DF) (c : String) : List ℚ :=
  match t.colIdx c with
  | some i => t.rows.map (fun r => r.getD i 0)
  | none => []

/-- A row of the segment table produced by `find_label_segments`:
start index, end index (exclusive), duration and label. -/
structure Seg where
  start : Nat
  stop : Nat
  duration : Nat
  label : ℚ
deriving DecidableEq

/-- `get_segment_label` (preprocessing.py): for each segment take the slice
`data.iloc[start:end, label_column]` and, when it is nonempty, record its
first value (`unique()[0]`). -/
def get_segment_label (data : DF) (segments : List (Nat × Nat))
    (label_column : String) : Except String (List ℚ) :=
  if label_column ∈ data.cols then
    .ok (segments.filterMap (fun p =>
      (((data.col label_column).drop p.1).take (p.2 - p.1)).head?))
  else
    .error "Target column not found in DataFrame"

/-- A Python argument that is either a genuine DataFrame or something else
(the `isinstance` check in the source). -/
inductive PyInput where
  | df (t : DF)
  | notDF
deriving DecidableEq

/-- `find_label_segments` (preprocessing.py): validates the input, segments
the label column, attaches labels, checks the internal length invariant and
builds the segment table with `duration = end - start`. -/
def find_label_segments (data : PyInput) (label_column : String) :
    Except String (List Seg) :=
  match data with
  | .notDF => .error "Input type is not appropriate."
  | .df t =>
    if label_column ∈ t.cols then
      match find_subsegments_indices (t.col label_column) with
      | .error e => .error e
      | .ok segments =>
        match get_segment_label t segments label_column with
        | .error e => .error e
        | .ok labels =>
          if labels.length ≠ segments.length then
            .error "Length mismatch between segments and labels"
          else
            .ok (List.zipWith
              (fun (p : Nat × Nat) (l : ℚ) => Seg.mk p.1 p.2 (p.2 - p.1) l)
              segments labels)
    else
      .error "Target column not found in DataFrame"

theorem slice_head (l : List ℚ) (a n : Nat) (hn : 0 < n) (ha : a < l.length) :
    ((l.drop a).take n).head? = some (l.getD a 0) := by
  rw [List.drop_eq_getElem_cons ha]
  cases n with
  | zero => omega
  | succ m =>
    rw [List.take_succ_cons]
    show some l[a] = some (l.getD a 0)
    rw [List.getD_eq_getElem?_getD, List.getElem?_eq_getElem ha]
    rfl

theorem filterMap_eq_map_of_forall {α β : Type} (l : List α) (f : α → Option β)
    (g : α → β) (hfg : ∀ x ∈ l, f x = some (g x)) :
    l.filterMap f = l.map g := by
  induction l with
  | nil => rfl
  | cons a rest ih =>
    rw [List.filterMap_cons, hfg a (by simp), List.map_cons]
    rw [ih (fun x hx => hfg x (List.mem_cons_of_mem _ hx))]

theorem mem_zipWith_map_self {α β γ : Type} (f : α → β → γ) (g : α → β)
    (l : List α) : ∀ c ∈ List.zipWith f l (l.map g), ∃ x ∈ l, c = f x (g x) := by
  induction l with
  | nil => intro c hc; cases hc
  | cons a rest ih =>
    intro c hc
    rw [List.map_cons, List.zipWith_cons_cons] at hc
    cases hc with
    | head => exact ⟨a, by simp, rfl⟩
    | tail _ hmem =>
      obtain ⟨x, hx, rfl⟩ := ih c hmem
      exact ⟨x, List.mem_cons_of_mem _ hx, rfl⟩

theorem col_length (t : DF) (c : String) (hc : c ∈ t.cols) :
    (t.col c).length = t.rows.length := by
  unfold DF.col DF.colIdx
  cases h : t.cols.indexOf? c with
  | some i => simp
  | none =>
    exfalso
    exact (List.indexOf?_eq_none_iff.mp h) c hc (by simp)

theorem col_ne_nil (t : DF) (c : String) (hc : c ∈ t.cols)
    (hrows : t.rows ≠ []) : t.col c ≠ [] := by
  intro h
  have hl := col_length t c hc
  rw [h] at hl
  exact hrows (List.length_eq_zero.mp hl.symm)

theorem segment_label_eq (t : DF) (c : String) (hc : c ∈ t.cols)
    (hrows : t.rows ≠ []) :
    ∀ p ∈ subsegments (t.col c),
      (((t.col c).drop p.1).take (p.2 - p.1)).head? =
        some ((t.col c).getD p.1 0) := by
  intro p hp
  have hne := col_ne_nil t c hc hrows
  have hlt := (subsegments_spec (t.col c) hne).2.2.2.1 p hp
  have hle : p.2 ≤ (t.col c).length := by
    have hmem : p ∈ pairs (0 :: (changes (t.col c) ++ [(t.col c).length])) := by
      rwa [← subsegments_eq_pairs]
    exact bounds_le_length _ _ (pairs_mem_bounds _ p hmem).2
  exact slice_head _ _ _ (by omega) (by omega)

/-- On a nonempty table containing the label column, `find_label_segments`
succeeds and every segment's label is the source column value at its start. -/
theorem find_label_segments_ok (t : DF) (c : String) (hc : c ∈ t.cols)
    (hrows : t.rows ≠ []) :
    find_label_segments (.df t) c =
      .ok (List.zipWith
        (fun (p : Nat × Nat) (l : ℚ) => Seg.mk p.1 p.2 (p.2 - p.1) l)
        (subsegments (t.col c))
        ((subsegments (t.col c)).map (fun p => (t.col c).getD p.1 0))) := by
  have hne := col_ne_nil t c hc hrows
  have hlen : ¬((t.col c).length = 0) := fun h => hne (List.length_eq_zero.mp h)
  have hfm : (subsegments (t.col c)).filterMap
      (fun p => (((t.col c).drop p.1).take (p.2 - p.1)).head?) =
      (subsegments (t.col c)).map (fun p => (t.col c).getD p.1 0) :=
    filterMap_eq_map_of_forall _ _ _ (segment_label_eq t c hc hrows)
  show (if c ∈ t.cols then _ else _) = _
  rw [if_pos hc]
  show (match find_subsegments_indices (t.col c) with
    | .error e => Except.error e
    | .ok segments => _) = _
  unfold find_subsegments_indices
  rw [if_neg hlen]
  show (match get_segment_label t (subsegments (t.col c)) c with
    | .error e => Except.error e
    | .ok labels => _) = _
  unfold get_segment_label
  rw [if_pos hc, hfm]
  simp [List.length_map]

/-- C2: every segment row returned by `find_label_segments` carries the single
label shared by all positions of its half-open range in the source column, and
the number of labels equals the number of segments. -/
theorem claim_C2_label_homogeneity (t : DF) (c : String)
    (hc : c ∈ t.cols) (hrows : t.rows ≠ []) (segs : List Seg)
    (hok : find_label_segments (.df t) c = .ok segs) :
    (∀ s ∈ segs, ∀ j, s.start ≤ j → j < s.stop →
      (t.col c)[j]? = some s.label)
    ∧ segs.length = (subsegments (t.col c)).length := by
  rw [find_label_segments_ok t c hc hrows] at hok
  injection hok with hok
  subst hok
  have hne := col_ne_nil t c hc hrows
  constructor
  · intro s hs j hj1 hj2
    obtain ⟨p, hp, rfl⟩ := mem_zipWith_map_self _ _ _ s hs
    have hconst := subsegments_const (t.col c) hne p hp j hj1 hj2
    show (t.col c)[j]? = some ((t.col c).getD p.1 0)
    rw [hconst]
    have hlt := (subsegments_spec (t.col c) hne).2.2.2.1 p hp
    have hle : p.2 ≤ (t.col c).length := by
      have hmem : p ∈ pairs (0 :: (changes (t.col c) ++ [(t.col c).length])) := by
        rwa [← subsegments_eq_pairs]
      exact bounds_le_length _ _ (pairs_mem_bounds _ p hmem).2
    have hp1 : p.1 < (t.col c).length := by omega
    rw [List.getD_eq_getElem?_getD, List.getElem?_eq_getElem hp1]
    rfl
  · rw [List.length_zipWith, List.length_map, Nat.min_self]

/-- Witness for C2 at a concrete 3-row table. -/
theorem claim_C2_label_homogeneity_witness :
    ∃ segs, find_label_segments (.df ⟨["pred"], [[1], [1], [2]]⟩) "pred" = .ok segs
    ∧ ((∀ s ∈ segs, ∀ j, s.start ≤ j → j < s.stop →
        ((DF.mk ["pred"] [[1], [1], [2]]).col "pred")[j]? = some s.label)
      ∧ segs.length = (subsegments ((DF.mk ["pred"] [[1], [1], [2]]).col "pred")).length) := by
  refine ⟨_, rfl, ?_⟩
  exact claim_C2_label_homogeneity ⟨["pred"], [[1], [1], [2]]⟩ "pred"
    (by simp) (by simp) _ rfl

/-- C8: `find_label_segments` errors exactly on a non-table input, a missing
label column, or an empty label sequence; on every nonempty table containing
the column it returns normally (so the length-mismatch branch never fires). -/
theorem claim_C8_error_iff (input : PyInput) (c : String) :
    ((∃ e, find_label_segments input c = .error e) ↔
      input = .notDF ∨ ∃ t, input = .df t ∧ (c ∉ t.cols ∨ t.rows = []))
    ∧ (∀ t, input = .df t → c ∈ t.cols → t.rows ≠ [] →
        ∃ segs, find_label_segments input c = .ok segs) := by
  constructor
  · constructor
    · rintro ⟨e, he⟩
      cases input with
      | notDF => exact Or.inl rfl
      | df t =>
        refine Or.inr ⟨t, rfl, ?_⟩
        by_cases hc : c ∈ t.cols
        · by_cases hr : t.rows = []
          · exact Or.inr hr
          · rw [find_label_segments_ok t c hc hr] at he
            cases he
        · exact Or.inl hc
    · rintro (rfl | ⟨t, rfl, hbad⟩)
      · exact ⟨_, rfl⟩
      · rcases hbad with hc | hr
        · refine ⟨"Target column not found in DataFrame", ?_⟩
          show (if c ∈ t.cols then _ else _) = _
          rw [if_neg hc]
        · by_cases hc : c ∈ t.cols
          · refine ⟨"Segments cannot be extracted from an empty list", ?_⟩
            show (if c ∈ t.cols then _ else _) = _
            rw [if_pos hc]
            have hlen : (t.col c).length = 0 := by
              rw [col_length t c hc, hr]
              rfl
            show (match find_subsegments_indices (t.col c) with
              | .error e => Except.error e
              | .ok segments => _) = _
            unfold find_subsegments_indices
            rw [if_pos hlen]
          · refine ⟨"Target column not found in DataFrame", ?_⟩
            show (if c ∈ t.cols then _ else _) = _
            rw [if_neg hc]
  · intro t heq hc hr
    subst heq
    exact ⟨_, find_label_segments_ok t c hc hr⟩

/-- `windows_to_seconds` (preprocessing.py): duration in samples at the fixed
50 Hz reference rate. -/
def windows_to_seconds (n_windows : ℚ) (n_win_size : ℚ := 25)
    (n_win_slide : ℚ := 5) : ℚ :=
  (n_win_size + n_win_slide * (n_windows - 1)) / 50

/-- `np.mean` over a list of rationals. -/
def meanQ (l : List ℚ) : ℚ :=
  l.sum / (l.length : ℚ)

/-- Label translation through an optional mapping dict: without a mapping the
label is kept, with one it is looked up (missing keys give NaN, i.e. none). -/
def mapLabel (mapping : Option (List (ℚ × ℚ))) (x : ℚ) : Option ℚ :=
  match mapping with
  | none => some x
  | some m => m.lookup x

/-- The canonical label universe: `mapping.values()` when a mapping is given,
else the fixed set `[1, 2, 3]`. -/
def allLabels (mapping : Option (List (ℚ × ℚ))) : List ℚ :=
  match mapping with
  | some m => m.map Prod.snd
  | none => [1, 2, 3]

/-- Output shape of `get_num_expressions`: per-label rows or a total. -/
inductive CountOut where
  | perLabel (rows : List (ℚ × ℚ))
  | total (n : ℚ)
deriving DecidableEq

/-- `get_num_expressions` (count.py): segment the `pred` column, discard the
background label 0, optionally map labels, then either count per label
(grouped + reindexed over the canonical labels, filling 0) or in total. -/
def get_num_expressions (results : DF) (mapping : Option (List (ℚ × ℚ)))
    (group : Bool) : Except String CountOut :=
  match find_label_segments (.df results) "pred" with
  | .error e => .error e
  | .ok segs0 =>
    let segments := segs0.filter (fun s => decide (s.label ≠ 0))
    let labels := allLabels mapping
    if group then
      .ok (.perLabel (labels.map (fun v =>
        (v, ((segments.countP
          (fun s => decide (mapLabel mapping s.label = some v)) : Nat) : ℚ)))))
    else
      .ok (.total ((segments.length : ℚ)))

/-- Output shape of `get_expression_duration`. -/
inductive DurOut where
  | perSeg (rows : List (ℚ × Option ℚ))
  | perLabel (rows : List (ℚ × ℚ))
  | single (v : ℚ)
deriving DecidableEq

/-- `get_expression_duration` (duration.py): segment `pred`, drop background,
then per-segment converted durations, per-label averaged durations (reindexed
over the canonical labels, filling 0), an overall average, or the zero-filled
frame when no qualifying segment exists. -/
def get_expression_duration (results : DF) (mapping : Option (List (ℚ × ℚ)))
    (average : Bool) (group : Bool) : Except String DurOut :=
  match find_label_segments (.df results) "pred" with
  | .error e => .error e
  | .ok segs0 =>
    let segments := segs0.filter (fun s => decide (s.label ≠ 0))
    let all_labels := allLabels mapping
    if ¬segments.isEmpty then
      if average then
        if group then
          .ok (.perLabel (all_labels.map (fun v =>
            let grp := segments.filter
              (fun s => decide (mapLabel mapping s.label = some v))
            (v, if grp.isEmpty then 0
                else windows_to_seconds
                  (meanQ (grp.map (fun s => (s.duration : ℚ))))))))
        else
          .ok (.single (meanQ (segments.map
            (fun s => windows_to_seconds (s.duration : ℚ)))))
      else
        .ok (.perSeg (segments.map (fun s =>
          (windows_to_seconds (s.duration : ℚ), mapLabel mapping s.label))))
    else
      if group then
        .ok (.perLabel (all_labels.map (fun v => (v, 0))))
      else
        .ok (.single 0)

/-- `get_intensities_per_segments` (intensity.py): per segment take the
maximum of the `Intensity` column over `[start, end)`, keep it when strictly
above the threshold, then average (0 when nothing qualifies). -/
def get_intensities_per_segments (segments : List Seg) (intensity_data : DF)
    (intensity_threshold : ℚ) : ℚ :=
  let vals := segments.filterMap (fun s =>
    match (((intensity_data.col "Intensity").drop s.start).take
        (s.stop - s.start)).max? with
    | some m => if m > intensity_threshold then some m else none
    | none => none)
  if vals.isEmpty then 0 else meanQ vals

/-- Output shape of `get_mean_intensities`. -/
inductive IntOut where
  | perLabel (rows : List (ℚ × ℚ))
  | single (v : ℚ)
deriving DecidableEq

/-- `get_mean_intensities` (intensity.py): segment the label column, drop
background; with `group_labels` group segments by (mapped) label, compute the
thresholded mean per label and reindex over the canonical labels filling 0;
otherwise compute one mean — the source passes no threshold there, so the
default 0 is used. -/
def get_mean_intensities (intensity_data : DF)
    (mapping : Option (List (ℚ × ℚ))) (group_labels : Bool)
    (intensity_threshold : ℚ) (label_col : String) : Except String IntOut :=
  match find_label_segments (.df intensity_data) label_col with
  | .error e => .error e
  | .ok segs0 =>
    let segments := segs0.filter (fun s => decide (s.label ≠ 0))
    let all_labels := allLabels mapping
    if segments.isEmpty then
      if group_labels then
        .ok (.perLabel (all_labels.map (fun v => (v, 0))))
      else
        .ok (.single 0)
    else
      if group_labels then
        .ok (.perLabel (all_labels.map (fun v =>
          let grp := segments.filter
            (fun s => decide (mapLabel mapping s.label = some v))
          (v, if grp.isEmpty then 0
              else get_intensities_per_segments grp intensity_data
                intensity_threshold))))
      else
        .ok (.single (get_intensities_per_segments segments intensity_data 0))

/-- C9: `windows_to_seconds` computes
`(window_size + window_slide * (n_windows - 1)) / 50`, with
`windows_to_seconds 1 25 5 = 0.5` and `windows_to_seconds 5 25 5 = 0.9`. -/
theorem claim_C9_windows_to_seconds (n : ℤ) (_h : 1 ≤ n) (ws sl : ℚ) :
    windows_to_seconds (n : ℚ) ws sl = (ws + sl * ((n : ℚ) - 1)) / 50
    ∧ windows_to_seconds 1 25 5 = 1 / 2
    ∧ windows_to_seconds 5 25 5 = 9 / 10 := by
  refine ⟨rfl, ?_, ?_⟩
  · unfold windows_to_seconds
    norm_num
  · unfold windows_to_seconds
    norm_num

/-- Witness for C9 at `n_windows = 3`. -/
theorem claim_C9_windows_to_seconds_witness :
    (1 : ℤ) ≤ 3
    ∧ (windows_to_seconds ((3 : ℤ) : ℚ) 25 5 = (25 + 5 * (((3 : ℤ) : ℚ) - 1)) / 50
      ∧ windows_to_seconds 1 25 5 = 1 / 2
      ∧ windows_to_seconds 5 25 5 = 9 / 10) :=
  ⟨by decide, claim_C9_windows_to_seconds 3 (by decide) 25 5⟩

/-- Projecting the first components of a label-indexed row list. -/
theorem map_fst_pairing {β : Type} (l : List ℚ) (f : ℚ → β) :
    (l.map (fun v => (v, f v))).map Prod.fst = l := by
  induction l with
  | nil => rfl
  | cons a rest ih => simp [ih]

/-- C3 (amended): in per-label mode the count and intensity aggregators always
emit exactly one row per canonical label, in canonical order, with value 0 for
labels having no qualifying segment — including with zero qualifying segments;
the duration aggregator does so when `average` is true or when no qualifying
segment exists (with `average = false` and qualifying segments present its
output is per-segment instead). -/
theorem claim_C3_zero_fill_amended (t : DF) (mapping : Option (List (ℚ × ℚ)))
    (segs0 : List Seg) (hseg : find_label_segments (.df t) "pred" = .ok segs0) :
    (∃ rows, get_num_expressions t mapping true = .ok (.perLabel rows)
      ∧ rows.map Prod.fst = allLabels mapping
      ∧ ∀ p ∈ rows,
          (∀ s ∈ segs0, s.label ≠ 0 → mapLabel mapping s.label ≠ some p.1) →
          p.2 = 0)
    ∧ (∀ average : Bool,
        (average = true
          ∨ (segs0.filter (fun s => decide (s.label ≠ 0))).isEmpty = true) →
        ∃ rows, get_expression_duration t mapping average true = .ok (.perLabel rows)
        ∧ rows.map Prod.fst = allLabels mapping
        ∧ ∀ p ∈ rows,
            (∀ s ∈ segs0, s.label ≠ 0 → mapLabel mapping s.label ≠ some p.1) →
            p.2 = 0)
    ∧ (∀ lc segsI, find_label_segments (.df t) lc = .ok segsI → ∀ thr,
        ∃ rows, get_mean_intensities t mapping true thr lc = .ok (.perLabel rows)
        ∧ rows.map Prod.fst = allLabels mapping
        ∧ ∀ p ∈ rows,
            (∀ s ∈ segsI, s.label ≠ 0 → mapLabel mapping s.label ≠ some p.1) →
            p.2 = 0) := by
  refine ⟨?_, ?_, ?_⟩
  · refine ⟨(allLabels mapping).map (fun v =>
      (v, (((segs0.filter (fun s => decide (s.label ≠ 0))).countP
        (fun s => decide (mapLabel mapping s.label = some v)) : Nat) : ℚ))), ?_, ?_, ?_⟩
    · unfold get_num_expressions
      rw [hseg]
      rfl
    · exact map_fst_pairing _ _
    · intro p hp hnone
      rw [List.mem_map] at hp
      obtain ⟨v, hv, rfl⟩ := hp
      show (((segs0.filter (fun s => decide (s.label ≠ 0))).countP
        (fun s => decide (mapLabel mapping s.label = some v)) : Nat) : ℚ) = 0
      rw [Nat.cast_eq_zero, List.countP_eq_zero]
      intro s hs
      rw [List.mem_filter] at hs
      obtain ⟨hs0, hsl⟩ := hs
      simp only [decide_eq_true_eq] at hsl ⊢
      exact hnone s hs0 hsl
  · intro average havg
    by_cases hemp : (segs0.filter (fun s => decide (s.label ≠ 0))).isEmpty = true
    · refine ⟨(allLabels mapping).map (fun v => (v, 0)), ?_, ?_, ?_⟩
      · unfold get_expression_duration
        rw [hseg]
        show (if ¬((segs0.filter (fun s => decide (s.label ≠ 0))).isEmpty = true)
          then _ else _) = _
        rw [if_neg (fun hc => hc hemp)]
        rfl
      · exact map_fst_pairing _ _
      · intro p hp _
        rw [List.mem_map] at hp
        obtain ⟨v, hv, rfl⟩ := hp
        rfl
    · have haveq : average = true := by
        rcases havg with h | h
        · exact h
        · exact absurd h hemp
      subst haveq
      refine ⟨(allLabels mapping).map (fun v =>
        (v, if ((segs0.filter (fun s => decide (s.label ≠ 0))).filter
              (fun s => decide (mapLabel mapping s.label = some v))).isEmpty then 0
            else windows_to_seconds
              (meanQ (((segs0.filter (fun s => decide (s.label ≠ 0))).filter
                (fun s => decide (mapLabel mapping s.label = some v))).map
                  (fun s => (s.duration : ℚ)))))), ?_, ?_, ?_⟩
      · unfold get_expression_duration
        rw [hseg]
        show (if ¬((segs0.filter (fun s => decide (s.label ≠ 0))).isEmpty = true)
          then _ else _) = _
        rw [if_pos hemp]
        rfl
      · exact map_fst_pairing _ _
      · intro p hp hnone
        rw [List.mem_map] at hp
        obtain ⟨v, hv, rfl⟩ := hp
        have hgrp : ((segs0.filter (fun s => decide (s.label ≠ 0))).filter
            (fun s => decide (mapLabel mapping s.label = some v))) = [] := by
          rw [List.filter_eq_nil_iff]
          intro s hs
          rw [List.mem_filter] at hs
          obtain ⟨hs0, hsl⟩ := hs
          simp only [decide_eq_true_eq] at hsl ⊢
          exact hnone s hs0 hsl
        rw [hgrp]
        rfl
  · intro lc segsI hsegI thr
    by_cases hemp : (segsI.filter (fun s => decide (s.label ≠ 0))).isEmpty = true
    · refine ⟨(allLabels mapping).map (fun v => (v, 0)), ?_, ?_, ?_⟩
      · unfold get_mean_intensities
        rw [hsegI]
        show (if (segsI.filter (fun s => decide (s.label ≠ 0))).isEmpty = true
          then _ else _) = _
        rw [if_pos hemp]
        rfl
      · exact map_fst_pairing _ _
      · intro p hp _
        rw [List.mem_map] at hp
        obtain ⟨v, hv, rfl⟩ := hp
        rfl
    · refine ⟨(allLabels mapping).map (fun v =>
        (v, if ((segsI.filter (fun s => decide (s.label ≠ 0))).filter
              (fun s => decide (mapLabel mapping s.label = some v))).isEmpty then 0
            else get_intensities_per_segments
              ((segsI.filter (fun s => decide (s.label ≠ 0))).filter
                (fun s => decide (mapLabel mapping s.label = some v))) t thr)), ?_, ?_, ?_⟩
      · unfold get_mean_intensities
        rw [hsegI]
        show (if (segsI.filter (fun s => decide (s.label ≠ 0))).isEmpty = true
          then _ else _) = _
        rw [if_neg hemp]
        rfl
      · exact map_fst_pairing _ _
      · intro p hp hnone
        rw [List.mem_map] at hp
        obtain ⟨v, hv, rfl⟩ := hp
        have hgrp : ((segsI.filter (fun s => decide (s.label ≠ 0))).filter
            (fun s => decide (mapLabel mapping s.label = some v))) = [] := by
          rw [List.filter_eq_nil_iff]
          intro s hs
          rw [List.mem_filter] at hs
          obtain ⟨hs0, hsl⟩ := hs
          simp only [decide_eq_true_eq] at hsl ⊢
          exact hnone s hs0 hsl
        rw [hgrp]
        rfl

/-- C3 counterexample: with `average = false` and one qualifying segment, the
duration aggregator in per-label mode returns one row per segment, not one row
per canonical label (1 row instead of 3). -/
theorem claim_C3_zero_fill_counterexample :
    ∃ rows, get_expression_duration ⟨["pred"], [[1]]⟩ none false true
        = .ok (.perSeg rows)
    ∧ rows.length = 1
    ∧ (allLabels none).length = 3
    ∧ ∀ rows2, get_expression_duration ⟨["pred"], [[1]]⟩ none false true
        ≠ .ok (.perLabel rows2) := by
  refine ⟨_, rfl, rfl, rfl, ?_⟩
  intro rows2 hcontra
  rw [show get_expression_duration ⟨["pred"], [[1]]⟩ none false true
    = .ok (.perSeg [(windows_to_seconds ((1 : Nat) : ℚ), some 1)]) from rfl] at hcontra
  cases hcontra

/-- Witness for the amended C3 at a concrete 2-row table. -/
theorem claim_C3_zero_fill_amended_witness :
    ∃ segs0, find_label_segments (.df ⟨["pred"], [[1], [0]]⟩) "pred" = .ok segs0
    ∧ ((∃ rows, get_num_expressions ⟨["pred"], [[1], [0]]⟩ none true
          = .ok (.perLabel rows)
        ∧ rows.map Prod.fst = allLabels none
        ∧ ∀ p ∈ rows,
            (∀ s ∈ segs0, s.label ≠ 0 → mapLabel none s.label ≠ some p.1) →
            p.2 = 0)
      ∧ (∀ average : Bool,
          (average = true
            ∨ (segs0.filter (fun s => decide (s.label ≠ 0))).isEmpty = true) →
          ∃ rows, get_expression_duration ⟨["pred"], [[1], [0]]⟩ none average true
            = .ok (.perLabel rows)
          ∧ rows.map Prod.fst = allLabels none
          ∧ ∀ p ∈ rows,
              (∀ s ∈ segs0, s.label ≠ 0 → mapLabel none s.label ≠ some p.1) →
              p.2 = 0)
      ∧ (∀ lc segsI,
          find_label_segments (.df ⟨["pred"], [[1], [0]]⟩) lc = .ok segsI → ∀ thr,
          ∃ rows, get_mean_intensities ⟨["pred"], [[1], [0]]⟩ none true thr lc
            = .ok (.perLabel rows)
          ∧ rows.map Prod.fst = allLabels none
          ∧ ∀ p ∈ rows,
              (∀ s ∈ segsI, s.label ≠ 0 → mapLabel none s.label ≠ some p.1) →
              p.2 = 0)) :=
  ⟨_, rfl, claim_C3_zero_fill_amended ⟨["pred"], [[1], [0]]⟩ none _ rfl⟩

/-- C4: the per-label mode of the intensity aggregator applies the caller's
threshold with strict `>` (value 5 is dropped at thresholds 9 and 5, kept at
4), but the `per_label = False` branch ignores the caller's threshold: with
threshold 9 and a single segment of representative intensity 5 it returns 5
instead of the 0 the claim requires. -/
theorem claim_C4_threshold_ignored_in_overall_mode :
    get_mean_intensities ⟨["Predictions", "Intensity"], [[1, 5]]⟩ none false 9
        "Predictions" = .ok (.single 5)
    ∧ ¬((5 : ℚ) > 9)
    ∧ (5 : ℚ) ≠ 0
    ∧ get_mean_intensities ⟨["Predictions", "Intensity"], [[1, 5]]⟩ none true 9
        "Predictions" = .ok (.perLabel [(1, 0), (2, 0), (3, 0)])
    ∧ get_mean_intensities ⟨["Predictions", "Intensity"], [[1, 5]]⟩ none true 5
        "Predictions" = .ok (.perLabel [(1, 0), (2, 0), (3, 0)])
    ∧ get_mean_intensities ⟨["Predictions", "Intensity"], [[1, 5]]⟩ none true 4
        "Predictions" = .ok (.perLabel [(1, 5), (2, 0), (3, 0)]) := by
  refine ⟨?_, by norm_num, by norm_num, ?_, ?_, ?_⟩ <;>
    · simp +decide [get_mean_intensities, get_intensities_per_segments,
        find_label_segments, get_segment_label, find_subsegments_indices,
        subsegments, changes, meanQ, DF.col, DF.colIdx,
        List.indexOf?, List.findIdx?, List.lookup, mapLabel, allLabels,
        List.max?, List.filterMap, List.range, List.range.loop]

/-- Witness for C8 at a concrete valid table. -/
theorem claim_C8_error_iff_witness :
    ((∃ e, find_label_segments (.df ⟨["pred"], [[1], [2]]⟩) "pred" = .error e) ↔
      (PyInput.df ⟨["pred"], [[1], [2]]⟩) = .notDF
        ∨ ∃ t, (PyInput.df ⟨["pred"], [[1], [2]]⟩) = .df t
            ∧ ("pred" ∉ t.cols ∨ t.rows = []))
    ∧ (∀ t, (PyInput.df ⟨["pred"], [[1], [2]]⟩) = .df t → "pred" ∈ t.cols →
        t.rows ≠ [] →
        ∃ segs, find_label_segments (.df ⟨["pred"], [[1], [2]]⟩) "pred" = .ok segs) :=
  claim_C8_error_iff (.df ⟨["pred"], [[1], [2]]⟩) "pred"

/-- Projecting the second components of a label-indexed row list. -/
theorem map_snd_pairing {β : Type} (l : List ℚ) (f : ℚ → β) :
    (l.map (fun v => (v, f v))).map Prod.snd = l.map f := by
  induction l with
  | nil => rfl
  | cons a rest ih => simp [ih]

theorem countP_disjoint_add {α : Type} (S : List α) (p q : α → Bool)
    (hdisj : ∀ s ∈ S, ¬(p s = true ∧ q s = true)) :
    S.countP p + S.countP q = S.countP (fun s => p s || q s) := by
  induction S with
  | nil => rfl
  | cons a rest ih =>
    have hd := hdisj a (by simp)
    have ihr := ih (fun s hs => hdisj s (List.mem_cons_of_mem _ hs))
    rw [List.countP_cons, List.countP_cons, List.countP_cons]
    cases hp : p a <;> cases hq : q a <;>
      simp only [hp, hq, Bool.false_or, Bool.true_or, Bool.or_false,
        Bool.or_true] <;> simp_all <;> omega

/-- Summing per-value occurrence counts over a duplicate-free value list
counts exactly the elements sent to one of those values. -/
theorem sum_countP_nodup {α : Type} (vs : List ℚ) (hnd : vs.Nodup)
    (S : List α) (f : α → Option ℚ) :
    (vs.map (fun v => S.countP (fun s => decide (f s = some v)))).sum
      = S.countP (fun s => decide (∃ v ∈ vs, f s = some v)) := by
  induction vs with
  | nil =>
    rw [List.map_nil, List.sum_nil]
    rw [Eq.comm, List.countP_eq_zero]
    intro s _
    simp
  | cons v vs' ih =>
    have hvnot : v ∉ vs' := (List.nodup_cons.mp hnd).1
    rw [List.map_cons, List.sum_cons, ih (List.nodup_cons.mp hnd).2]
    have hdisj : ∀ s ∈ S, ¬((decide (f s = some v)) = true
        ∧ (decide (∃ u ∈ vs', f s = some u)) = true) := by
      intro s _ ⟨h1, h2⟩
      rw [decide_eq_true_eq] at h1 h2
      obtain ⟨u, hu, hfu⟩ := h2
      rw [h1] at hfu
      injection hfu with hvu
      exact hvnot (hvu ▸ hu)
    rw [countP_disjoint_add S _ _ hdisj]
    refine List.countP_congr ?_
    intro s _
    simp [List.exists_mem_cons]

theorem sum_map_natCast {α : Type} (l : List α) (f : α → Nat) :
    (l.map (fun x => ((f x : Nat) : ℚ))).sum = (((l.map f).sum : Nat) : ℚ) := by
  induction l with
  | nil => rfl
  | cons a rest ih => simp [ih]

theorem countP_lt_length_of_false {α : Type} (S : List α) (p : α → Bool)
    (s₀ : α) (hs : s₀ ∈ S) (hp : p s₀ = false) :
    S.countP p < S.length := by
  have h1 := @List.length_eq_countP_add_countP α p S
  have h2 : 0 < S.countP (fun a => ¬p a) := by
    refine List.countP_pos_iff.mpr ⟨s₀, hs, ?_⟩
    simp [hp]
  omega

/-- C10: when the supplied mapping omits a non-background label present in the
data, no error is raised; the per-label outputs of all three aggregators
enumerate only `mapping.values()`, the unmapped segments appear in no row, and
(for distinct mapping values) the sum of per-label counts is strictly below the
`per_label = False` total. -/
theorem claim_C10_unmapped_label_dropped (t : DF) (m : List (ℚ × ℚ))
    (segs0 : List Seg) (hseg : find_label_segments (.df t) "pred" = .ok segs0)
    (s₀ : Seg) (hs0 : s₀ ∈ segs0) (hlab : s₀.label ≠ 0)
    (hmiss : m.lookup s₀.label = none)
    (hnd : (m.map Prod.snd).Nodup) :
    get_num_expressions t (some m) false
        = .ok (.total (((segs0.filter (fun s => decide (s.label ≠ 0))).length : ℚ)))
    ∧ (∃ rows, get_num_expressions t (some m) true = .ok (.perLabel rows)
        ∧ rows.map Prod.fst = m.map Prod.snd
        ∧ (rows.map Prod.snd).sum
            < ((segs0.filter (fun s => decide (s.label ≠ 0))).length : ℚ))
    ∧ (∃ rows, get_expression_duration t (some m) true true = .ok (.perLabel rows)
        ∧ rows.map Prod.fst = m.map Prod.snd)
    ∧ (∀ lc segsI, find_label_segments (.df t) lc = .ok segsI → ∀ thr,
        ∃ rows, get_mean_intensities t (some m) true thr lc = .ok (.perLabel rows)
        ∧ rows.map Prod.fst = m.map Prod.snd) := by
  have hs0S : s₀ ∈ segs0.filter (fun s => decide (s.label ≠ 0)) :=
    List.mem_filter.mpr ⟨hs0, by simp [hlab]⟩
  refine ⟨?_, ?_, ?_, ?_⟩
  · unfold get_num_expressions
    rw [hseg]
    rfl
  · refine ⟨(m.map Prod.snd).map (fun v =>
      (v, (((segs0.filter (fun s => decide (s.label ≠ 0))).countP
        (fun s => decide (mapLabel (some m) s.label = some v)) : Nat) : ℚ))),
      ?_, ?_, ?_⟩
    · unfold get_num_expressions
      rw [hseg]
      rfl
    · exact map_fst_pairing _ _
    · rw [map_snd_pairing]
      have hlt : ((m.map Prod.snd).map (fun v =>
          (segs0.filter (fun s => decide (s.label ≠ 0))).countP
            (fun s => decide (mapLabel (some m) s.label = some v)))).sum
          < (segs0.filter (fun s => decide (s.label ≠ 0))).length := by
        rw [@sum_countP_nodup Seg (m.map Prod.snd) hnd
          (segs0.filter (fun s => decide (s.label ≠ 0)))
          (fun s => mapLabel (some m) s.label)]
        refine countP_lt_length_of_false _ _ s₀ hs0S ?_
        rw [decide_eq_false_iff_not]
        rintro ⟨v, _, hfv⟩
        rw [show mapLabel (some m) s₀.label = m.lookup s₀.label from rfl,
          hmiss] at hfv
        cases hfv
      rw [sum_map_natCast (m.map Prod.snd) (fun v =>
        (segs0.filter (fun s => decide (s.label ≠ 0))).countP
          (fun s => decide (mapLabel (some m) s.label = some v))), Nat.cast_lt]
      exact hlt
  · by_cases hemp : (segs0.filter (fun s => decide (s.label ≠ 0))).isEmpty = true
    · refine ⟨(allLabels (some m)).map (fun v => (v, 0)), ?_, map_fst_pairing _ _⟩
      unfold get_expression_duration
      rw [hseg]
      show (if ¬((segs0.filter (fun s => decide (s.label ≠ 0))).isEmpty = true)
        then _ else _) = _
      rw [if_neg (fun hc => hc hemp)]
      rfl
    · refine ⟨(allLabels (some m)).map (fun v =>
        (v, if ((segs0.filter (fun s => decide (s.label ≠ 0))).filter
              (fun s => decide (mapLabel (some m) s.label = some v))).isEmpty then 0
            else windows_to_seconds
              (meanQ (((segs0.filter (fun s => decide (s.label ≠ 0))).filter
                (fun s => decide (mapLabel (some m) s.label = some v))).map
                  (fun s => (s.duration : ℚ)))))), ?_, map_fst_pairing _ _⟩
      unfold get_expression_duration
      rw [hseg]
      show (if ¬((segs0.filter (fun s => decide (s.label ≠ 0))).isEmpty = true)
        then _ else _) = _
      rw [if_pos hemp]
      rfl
  · intro lc segsI hsegI thr
    by_cases hemp : (segsI.filter (fun s => decide (s.label ≠ 0))).isEmpty = true
    · refine ⟨(allLabels (some m)).map (fun v => (v, 0)), ?_, map_fst_pairing _ _⟩
      unfold get_mean_intensities
      rw [hsegI]
      show (if (segsI.filter (fun s => decide (s.label ≠ 0))).isEmpty = true
        then _ else _) = _
      rw [if_pos hemp]
      rfl
    · refine ⟨(allLabels (some m)).map (fun v =>
        (v, if ((segsI.filter (fun s => decide (s.label ≠ 0))).filter
              (fun s => decide (mapLabel (some m) s.label = some v))).isEmpty then 0
            else get_intensities_per_segments
              ((segsI.filter (fun s => decide (s.label ≠ 0))).filter
                (fun s => decide (mapLabel (some m) s.label = some v))) t thr)),
        ?_, map_fst_pairing _ _⟩
      unfold get_mean_intensities
      rw [hsegI]
      show (if (segsI.filter (fun s => decide (s.label ≠ 0))).isEmpty = true
        then _ else _) = _
      rw [if_neg hemp]
      rfl

/-- Witness for C10: mapping `{1 ↦ 10}` over labels `[1, 2, 2, 0, 1]` drops
both label-2 segments (per-label sum 2, total 3). -/
theorem claim_C10_unmapped_label_dropped_witness :
    ∃ segs0, find_label_segments (.df ⟨["pred"], [[1], [2], [2], [0], [1]]⟩) "pred"
        = .ok segs0
    ∧ ∃ s₀ ∈ segs0, s₀.label = 2 ∧
      (get_num_expressions ⟨["pred"], [[1], [2], [2], [0], [1]]⟩ (some [(1, 10)]) false
          = .ok (.total (((segs0.filter (fun s => decide (s.label ≠ 0))).length : ℚ)))
      ∧ (∃ rows, get_num_expressions ⟨["pred"], [[1], [2], [2], [0], [1]]⟩
            (some [(1, 10)]) true = .ok (.perLabel rows)
          ∧ rows.map Prod.fst = [(1, (10 : ℚ))].map Prod.snd
          ∧ (rows.map Prod.snd).sum
              < ((segs0.filter (fun s => decide (s.label ≠ 0))).length : ℚ))
      ∧ (∃ rows, get_expression_duration ⟨["pred"], [[1], [2], [2], [0], [1]]⟩
            (some [(1, 10)]) true true = .ok (.perLabel rows)
          ∧ rows.map Prod.fst = [(1, (10 : ℚ))].map Prod.snd)
      ∧ (∀ lc segsI,
          find_label_segments (.df ⟨["pred"], [[1], [2], [2], [0], [1]]⟩) lc
            = .ok segsI → ∀ thr,
          ∃ rows, get_mean_intensities ⟨["pred"], [[1], [2], [2], [0], [1]]⟩
            (some [(1, 10)]) true thr lc = .ok (.perLabel rows)
          ∧ rows.map Prod.fst = [(1, (10 : ℚ))].map Prod.snd)) := by
  refine ⟨_, rfl, Seg.mk 1 3 2 2, ?_, rfl, ?_⟩
  · exact List.mem_cons_of_mem _ (List.mem_cons_self _ _)
  · exact claim_C10_unmapped_label_dropped ⟨["pred"], [[1], [2], [2], [0], [1]]⟩
      [(1, 10)] _ rfl (Seg.mk 1 3 2 2)
      (List.mem_cons_of_mem _ (List.mem_cons_self _ _))
      (by norm_num) (by rfl) (by simp)

/-- `filter_predictions` (model.py): locate non-background segments of
duration at or below the threshold and assign 0 over `iloc[start:end, 0]`,
i.e. the POSITIONALLY FIRST column, whatever its name. -/
def filter_predictions (results : DF) (window_threshold : Nat) :
    Except String DF :=
  match find_label_segments (.df results) "pred" with
  | .error e => .error e
  | .ok segs0 =>
    let segments := (segs0.filter (fun s => decide (s.label ≠ 0))).filter
      (fun s => decide (s.duration ≤ window_threshold))
    .ok { cols := results.cols,
          rows := segments.foldl (fun rs s =>
            rs.mapIdx (fun i r =>
              if s.start ≤ i ∧ i < s.stop then r.set 0 0 else r)) results.rows }

/-- C6: on a table whose first column is not `pred`, `filter_predictions`
zeroes the first column and leaves `pred` untouched: the short segment
`[0, 2)` of label 1 keeps its `pred` values while column `a` is overwritten —
the opposite of the claim. -/
theorem claim_C6_wrong_column_zeroed :
    filter_predictions ⟨["a", "pred"], [[5, 1], [6, 1]]⟩ 2
        = .ok ⟨["a", "pred"], [[0, 1], [0, 1]]⟩
    ∧ (DF.mk ["a", "pred"] [[0, 1], [0, 1]]).col "pred"
        = (DF.mk ["a", "pred"] [[5, 1], [6, 1]]).col "pred"
    ∧ (DF.mk ["a", "pred"] [[0, 1], [0, 1]]).col "a"
        ≠ (DF.mk ["a", "pred"] [[5, 1], [6, 1]]).col "a"
    ∧ find_label_segments (.df ⟨["a", "pred"], [[5, 1], [6, 1]]⟩) "pred"
        = .ok [Seg.mk 0 2 2 1] := by
  refine ⟨rfl, by decide, by decide, rfl⟩

/-- Lexicographic boolean comparison on grouping keys. -/
def lexLe : List ℚ → List ℚ → Bool
  | [], _ => true
  | _ :: _, [] => false
  | a :: as, b :: bs => if a < b then true else if b < a then false else lexLe as bs

/-- Insert a key into a sorted key list. -/
def insertKey (k : List ℚ) : List (List ℚ) → List (List ℚ)
  | [] => [k]
  | j :: rest => if lexLe k j then k :: j :: rest else j :: insertKey k rest

/-- Insertion sort of grouping keys (pandas sorts group keys). -/
def sortKeys : List (List ℚ) → List (List ℚ)
  | [] => []
  | k :: rest => insertKey k (sortKeys rest)

/-- The grouping-key tuple of one row. -/
def rowKey (t : DF) (gcols : List String) (r : List ℚ) : List ℚ :=
  gcols.map (fun c =>
    match t.colIdx c with
    | some i => r.getD i 0
    | none => 0)

/-- The distinct grouping keys of a table, in sorted order. -/
def groupKeys (t : DF) (gcols : List String) : List (List ℚ) :=
  sortKeys ((t.rows.map (rowKey t gcols)).dedup)

/-- The sub-table of one group, rows kept in original order. -/
def subdf (t : DF) (gcols : List String) (k : List ℚ) : DF :=
  ⟨t.cols, t.rows.filter (fun r => decide (rowKey t gcols r = k))⟩

/-- `results.groupby(cols).apply(lambda x: get_num_expressions(x, ...))
.reset_index()` (count.py): per-group counts flattened onto the key columns. -/
def groupby_apply_counts (results : DF) (gcols : List String)
    (mapping : Option (List (ℚ × ℚ))) (group : Bool) : Except String DF :=
  if ∀ c ∈ gcols, c ∈ results.cols then do
    let rowss ← (groupKeys results gcols).mapM (fun k => do
      let out ← get_num_expressions (subdf results gcols k) mapping group
      pure (match out with
        | CountOut.perLabel rows => rows.map (fun p => k ++ [p.1, p.2])
        | CountOut.total n => [k ++ [n]]))
    pure { cols := gcols ++
            (if group then ["label", "expression_count"] else ["expression_count"]),
           rows := rowss.flatten }
  else
    .error "KeyError: grouping column not found"

/-- Overwrite a named column with new values. -/
def set_col (t : DF) (c : String) (vals : List ℚ) : DF :=
  match t.colIdx c with
  | some i => ⟨t.cols, (t.rows.zip vals).map (fun rv => rv.1.set i rv.2)⟩
  | none => t

/-- One group's transform in `normalize_data` (count.py, fit_all_cols=False):
each data column is fit-transformed independently by the scaler. -/
def transform_group (g : DF) (scaler : List ℚ → List ℚ)
    (data_cols : List String) : List (List ℚ) :=
  (data_cols.foldl (fun acc c => set_col acc c (scaler (acc.col c))) g).rows

/-- `normalize_data` (count.py): group by `grouping_columns`, fit-transform
the data columns within each group, reassemble in sorted group order. -/
def normalize_data (data : DF) (scaler : List ℚ → List ℚ)
    (grouping_columns : List String) (data_cols : List String) :
    Except String DF :=
  if (∀ c ∈ grouping_columns, c ∈ data.cols)
      ∧ (∀ c ∈ data_cols, c ∈ data.cols) then
    .ok { cols := data.cols,
          rows := (groupKeys data grouping_columns).flatMap (fun k =>
            transform_group (subdf data grouping_columns k) scaler data_cols) }
  else
    .error "KeyError: column not found"

/-- `normalized_data.groupby(cols)[vcol].sum().reset_index()` (count.py). -/
def groupby_sum (t : DF) (gcols : List String) (vcol : String) :
    Except String DF :=
  if (∀ c ∈ gcols, c ∈ t.cols) ∧ vcol ∈ t.cols then
    .ok { cols := gcols ++ [vcol],
          rows := (groupKeys t gcols).map (fun k =>
            k ++ [((subdf t gcols k).col vcol).sum]) }
  else
    .error "KeyError: column not found"

/-- The module-level default of the mutable `grouping_columns` parameter. -/
def default_grouping_columns : List String := ["Group", "Subject", "Video"]

/-- `get_grouped_num_expressions` (count.py) with the mutable default list
threaded as explicit state. On the normalize branch the finer key
`normalization_grouping_cols` is only assigned when "Video" is absent from the
grouping columns; when present, the later reference raises (UnboundLocalError).
`grouping_columns.append("label")` runs only after a successful
`normalize_data`, and mutates the module default only when the caller relied
on the default argument. -/
def get_grouped_num_expressions_st (st : List String) (results : DF)
    (gcArg : Option (List String)) (mapping : Option (List (ℚ × ℚ)))
    (group_labels normalize : Bool) (scaler : List ℚ → List ℚ) :
    Except String DF × List String :=
  let grouping_columns := gcArg.getD st
  if normalize then
    if "Video" ∈ grouping_columns then
      (.error "UnboundLocalError: normalization_grouping_cols", st)
    else
      let normalization_grouping_cols := grouping_columns ++ ["Video"]
      match groupby_apply_counts results normalization_grouping_cols mapping
        group_labels with
      | .error e => (.error e, st)
      | .ok grouped =>
        match normalize_data grouped scaler ["Subject"] ["expression_count"] with
        | .error e => (.error e, st)
        | .ok normalized_data =>
          let gcols2 := if group_labels then grouping_columns ++ ["label"]
            else grouping_columns
          let st2 := if group_labels ∧ gcArg = none then gcols2 else st
          (groupby_sum normalized_data gcols2 "expression_count", st2)
  else
    (groupby_apply_counts results grouping_columns mapping group_labels, st)

/-- `get_grouped_num_expressions` called with an explicit grouping list. -/
def get_grouped_num_expressions (results : DF) (grouping_columns : List String)
    (mapping : Option (List (ℚ × ℚ))) (group_labels normalize : Bool)
    (scaler : List ℚ → List ℚ) : Except String DF :=
  (get_grouped_num_expressions_st default_grouping_columns results
    (some grouping_columns) mapping group_labels normalize scaler).1

/-- C7: starting from the module's initial default, any call to the grouped
count aggregator leaves the default grouping-column list unchanged — the
`append("label")` site is reachable only on a successful normalize run, and a
normalize run using the default list (which contains "Video") always fails
before it — so two successive calls with identical arguments, in particular
two default-relying calls with `normalize` and `group_labels` set, return
identical results. -/
theorem claim_C7_no_cross_call_state (results : DF)
    (gcArg : Option (List String)) (mapping : Option (List (ℚ × ℚ)))
    (group_labels normalize : Bool) (scaler : List ℚ → List ℚ) :
    (get_grouped_num_expressions_st default_grouping_columns results gcArg
        mapping group_labels normalize scaler).2 = default_grouping_columns
    ∧ (get_grouped_num_expressions_st
        ((get_grouped_num_expressions_st default_grouping_columns results gcArg
          mapping group_labels normalize scaler).2) results gcArg mapping
        group_labels normalize scaler).1
      = (get_grouped_num_expressions_st default_grouping_columns results gcArg
          mapping group_labels normalize scaler).1 := by
  have hstate : (get_grouped_num_expressions_st default_grouping_columns results
      gcArg mapping group_labels normalize scaler).2 = default_grouping_columns := by
    unfold get_grouped_num_expressions_st
    cases gcArg with
    | none =>
      cases normalize with
      | false => rfl
      | true => simp +decide
    | some l =>
      cases normalize with
      | false => rfl
      | true =>
        by_cases hv : "Video" ∈ l
        · simp [hv]
        · cases h1 : groupby_apply_counts results (l ++ ["Video"]) mapping
            group_labels with
          | error e => simp [hv, h1]
          | ok grouped =>
            cases h2 : normalize_data grouped scaler ["Subject"]
              ["expression_count"] with
            | error e => simp [hv, h1, h2]
            | ok nd => simp [hv, h1, h2]
  exact ⟨hstate, by rw [hstate]⟩

theorem except_bind_ok {ε α β : Type} (a : α) (f : α → Except ε β) :
    (Except.ok a >>= f) = f a := rfl

/-- C5 counterexample: with `normalize = True` and a grouping key that already
contains "Video", the call fails (the finer grouping variable is referenced
but never assigned on that branch) instead of computing normalized counts. -/
theorem claim_C5_video_in_key_errors :
    get_grouped_num_expressions
      ⟨["Group", "Subject", "Video", "pred"], [[1, 1, 1, 1]]⟩
      ["Subject", "Video"] none true true id
      = .error "UnboundLocalError: normalization_grouping_cols" := by
  unfold get_grouped_num_expressions get_grouped_num_expressions_st
  simp +decide

/-- C5 (amended): with `normalize = True` and a grouping key that does not
contain "Video", counts are first computed at the finer key
`grouping_columns ++ ["Video"]`, each finer row is rescaled per Subject by the
Group Normalizer, and the rescaled counts are summed back up to the requested
key (plus "label" when `group_labels`); each output row's value is the sum of
the rescaled finer counts whose key restricts to it. A key already containing
"Video" instead raises. -/
theorem claim_C5_normalized_counts_amended (results : DF) (gcols : List String)
    (mapping : Option (List (ℚ × ℚ))) (group_labels : Bool)
    (scaler : List ℚ → List ℚ) (hv : "Video" ∉ gcols) :
    (get_grouped_num_expressions results gcols mapping group_labels true scaler
      = (do
          let grouped ← groupby_apply_counts results (gcols ++ ["Video"])
            mapping group_labels
          let nd ← normalize_data grouped scaler ["Subject"] ["expression_count"]
          groupby_sum nd (if group_labels then gcols ++ ["label"] else gcols)
            "expression_count"))
    ∧ "Video" ∈ gcols ++ ["Video"]
    ∧ (∀ (nd : DF) (gcols2 : List String) (out : DF) (i : Nat),
        groupby_sum nd gcols2 "expression_count" = .ok out →
        nd.colIdx "expression_count" = some i →
        out.rows = (groupKeys nd gcols2).map (fun k =>
          k ++ [((nd.rows.filter
            (fun r => decide (rowKey nd gcols2 r = k))).map
              (fun r => r.getD i 0)).sum])) := by
  refine ⟨?_, List.mem_append_right _ (by simp), ?_⟩
  · unfold get_grouped_num_expressions get_grouped_num_expressions_st
    cases h1 : groupby_apply_counts results (gcols ++ ["Video"]) mapping
      group_labels with
    | error e =>
      simp [hv, h1]
      rfl
    | ok grouped =>
      cases h2 : normalize_data grouped scaler ["Subject"]
        ["expression_count"] with
      | error e =>
        simp [hv, h1]
        simp only [except_bind_ok]
        rw [h2]
        rfl
      | ok nd =>
        simp [hv, h1]
        simp only [except_bind_ok]
        rw [h2]
        simp only [except_bind_ok]
  · intro nd gcols2 out i hok hidx
    have hcol : ∀ k, ((subdf nd gcols2 k).col "expression_count")
        = (nd.rows.filter (fun r => decide (rowKey nd gcols2 r = k))).map
          (fun r => r.getD i 0) := by
      intro k
      show (match (subdf nd gcols2 k).colIdx "expression_count" with
        | some j => (subdf nd gcols2 k).rows.map (fun (r : List ℚ) => r.getD j 0)
        | none => ([] : List ℚ)) = _
      have hidx2 : (subdf nd gcols2 k).colIdx "expression_count" = some i := hidx
      rw [hidx2]
      rfl
    unfold groupby_sum at hok
    by_cases hcond : (∀ c ∈ gcols2, c ∈ nd.cols)
        ∧ "expression_count" ∈ nd.cols
    · rw [if_pos hcond] at hok
      injection hok with hok
      rw [← hok]
      show (groupKeys nd gcols2).map _ = _
      simp only [hcol]
    · rw [if_neg hcond] at hok
      cases hok

/-- Witness for the amended C5 at a concrete two-video table. -/
theorem claim_C5_normalized_counts_amended_witness :
    ("Video" ∉ (["Group", "Subject"] : List String))
    ∧ ((get_grouped_num_expressions
        ⟨["Group", "Subject", "Video", "pred"], [[1, 1, 1, 1], [1, 1, 2, 1]]⟩
        ["Group", "Subject"] none false true id
      = (do
          let grouped ← groupby_apply_counts
            ⟨["Group", "Subject", "Video", "pred"], [[1, 1, 1, 1], [1, 1, 2, 1]]⟩
            (["Group", "Subject"] ++ ["Video"]) none false
          let nd ← normalize_data grouped id ["Subject"] ["expression_count"]
          groupby_sum nd
            (if false then ["Group", "Subject"] ++ ["label"]
              else ["Group", "Subject"]) "expression_count"))
    ∧ "Video" ∈ (["Group", "Subject"] : List String) ++ ["Video"]
    ∧ (∀ (nd : DF) (gcols2 : List String) (out : DF) (i : Nat),
        groupby_sum nd gcols2 "expression_count" = .ok out →
        nd.colIdx "expression_count" = some i →
        out.rows = (groupKeys nd gcols2).map (fun k =>
          k ++ [((nd.rows.filter
            (fun r => decide (rowKey nd gcols2 r = k))).map
              (fun r => r.getD i 0)).sum]))) :=
  ⟨by decide, claim_C5_normalized_counts_amended
    ⟨["Group", "Subject", "Video", "pred"], [[1, 1, 1, 1], [1, 1, 2, 1]]⟩
    ["Group", "Subject"] none false id (by decide)⟩

end Facial
